import Mathlib

/-!
Verification of the email normalization, scoring and merge engine
(email_processor.py, analyze_emails.py) against its specification.

The Python code is shallowly embedded: dictionaries become structures,
Python None becomes Option.none, sets become lists with membership,
integers become Int or Nat, and the Python stdlib collaborators
(email.utils, html2text, email_validator) appear either as explicit
function parameters or as small models restricted to the shapes the
repository actually feeds them.
-/

namespace EmailProc

/-- Model of the Python substring test (the operator "needle in hay" on
strings): startsWithSeq checks that the first list is a leading segment
of the second. -/
def startsWithSeq : List Char → List Char → Bool
  | [], _ => true
  | _ :: _, [] => false
  | a :: as, b :: bs => a == b && startsWithSeq as bs

/-- Model of the Python substring test, scanning for an occurrence of the
needle anywhere in the haystack. An empty needle always succeeds, as in
Python. -/
def hasSeq (needle : List Char) : List Char → Bool
  | [] => needle.isEmpty
  | c :: rest => startsWithSeq needle (c :: rest) || hasSeq needle rest

/-- Python string containment: needle appears contiguously in hay. -/
def pyIn (needle hay : String) : Bool := hasSeq needle.data hay.data

/-- Model of the Python str.lower method (ASCII case folding). -/
def pyLower (s : String) : String := ⟨s.data.map Char.toLower⟩

/-- Character-list worker for the Python str.split method with no
argument; cur accumulates the current token in reverse. -/
def wsTokensGo (cur : List Char) : List Char → List String
  | [] => if cur.isEmpty then [] else [⟨cur.reverse⟩]
  | c :: rest =>
      if c.isWhitespace then
        if cur.isEmpty then wsTokensGo [] rest
        else ⟨cur.reverse⟩ :: wsTokensGo [] rest
      else wsTokensGo (c :: cur) rest

/-- Model of the Python str.split method with no argument: split on runs
of whitespace, discarding empty pieces. -/
def pySplitWs (s : String) : List String := wsTokensGo [] s.data

/-- Character-list worker for the Python str.split method with a
one-character separator. -/
def sepTokensGo (sep : Char) (cur : List Char) : List Char → List String
  | [] => [⟨cur.reverse⟩]
  | c :: rest =>
      if c = sep then ⟨cur.reverse⟩ :: sepTokensGo sep [] rest
      else sepTokensGo sep (c :: cur) rest

/-- Model of the Python str.split method with a one-character separator
(empty pieces are kept, and the result is never empty). -/
def pySplitOnChar (sep : Char) (s : String) : List String := sepTokensGo sep [] s.data

/-- Model of the Python str.strip method with no argument: drop leading
and trailing whitespace. -/
def pyStrip (s : String) : String :=
  ⟨((s.data.dropWhile Char.isWhitespace).reverse.dropWhile Char.isWhitespace).reverse⟩

/-- Model of the Python str.strip method with an explicit character:
drop that character from both ends. -/
def pyStripChar (ch : Char) (s : String) : String :=
  ⟨((s.data.dropWhile (fun c => c = ch)).reverse.dropWhile (fun c => c = ch)).reverse⟩

/-- Model of the Python str.endswith method. -/
def pyEndsWith (suffix s : String) : Bool :=
  startsWithSeq suffix.data.reverse s.data.reverse

/-- Decimal-digit accumulator for the model of the Python int builtin. -/
def digitsToNatGo (acc : Nat) : List Char → Option Nat
  | [] => some acc
  | c :: rest =>
      if c.isDigit then digitsToNatGo (acc * 10 + (c.toNat - 48)) rest else none

/-- Model of the Python int builtin on a nonnegative decimal string
(failure models the ValueError the callers catch). -/
def pyToNat (s : String) : Option Nat :=
  if s.data.isEmpty then none else digitsToNatGo 0 s.data

/-- Truthiness of an optional string, as Python evaluates a header value
that may be None or the empty string. -/
def truthyS : Option String → Bool
  | none => false
  | some s => s ≠ ""

/-- Attachment record built by the _parse_email walk (filename,
content_type, size keys of the Python dict). -/
structure Attachment where
  filename : String
  content_type : String
  size : Nat
deriving DecidableEq

/-- Normalized message record: the email_data dictionary built by
the _parse_email method. Optional fields model headers that may be
absent (Python None). -/
structure EmailData where
  subject : String
  «from» : String
  «to» : String
  date : Option String
  message_id : Option String
  in_reply_to : Option String
  references : Option String
  is_reply : Bool
  is_from_contact : Bool
  body : String
  attachments : List Attachment
  importance_score : Int
deriving DecidableEq

/-- Contact directory loaded by the _load_contacts method: five string
sets (modelled as lists with membership). -/
structure Contacts where
  emails : List String
  names : List String
  first_names : List String
  last_names : List String
  organizations : List String
deriving DecidableEq

/-- One term-and-score section of scoring_config.json (the terms and
score keys of the financial_documents, receipts and important_keywords
entries). -/
structure TermRule where
  terms : List String
  score : Int
deriving DecidableEq

/-- The billing_addresses section of scoring_config.json (addresses and
score keys). -/
structure BillingRule where
  addresses : List String
  score : Int
deriving DecidableEq

/-- The contact_bonus section of scoring_config.json. -/
structure ContactBonus where
  from_contact : Int
  full_name_match : Int
  first_name_match : Int
  last_name_match : Int
  organization_match : Int
deriving DecidableEq

/-- The scoring configuration dictionary. A section that is absent from
scoring_config.json is modelled as none, so that the Python membership
test (the expression: section in self.scoring_config) becomes isSome.
The reply_bonus entry carries its single is_reply integer. -/
structure ScoringConfig where
  billing_addresses : Option BillingRule
  financial_documents : Option TermRule
  receipts : Option TermRule
  important_keywords : Option TermRule
  contact_bonus : Option ContactBonus
  reply_bonus : Option Int
deriving DecidableEq

/-- The empty scoring configuration: scoring_config.json missing, so the
dictionary is empty and every membership test fails. -/
def emptyConfig : ScoringConfig := ⟨none, none, none, none, none, none⟩

/-- Lower-cased concatenation of subject, from and body, as built at the
top of _calculate_importance_score. -/
def text_to_check (e : EmailData) : String :=
  pyLower (e.subject ++ " " ++ e.«from» ++ " " ++ e.body)

/-- Financial-documents contribution of _calculate_importance_score: the
configured score when any configured term occurs in the lower-cased
subject+from+body, zero when the section is absent or no term matches. -/
def financial_contrib (cfg : ScoringConfig) (text : String) : Int :=
  match cfg.financial_documents with
  | none => 0
  | some r => if r.terms.any (fun t => pyIn t text) then r.score else 0

/-- Receipts contribution of _calculate_importance_score (same term test
as the financial rule, typically a negative configured score). -/
def receipts_contrib (cfg : ScoringConfig) (text : String) : Int :=
  match cfg.receipts with
  | none => 0
  | some r => if r.terms.any (fun t => pyIn t text) then r.score else 0

/-- Important-keywords contribution of _calculate_importance_score: the
term test runs over the lower-cased subject alone. -/
def keywords_contrib (cfg : ScoringConfig) (subject : String) : Int :=
  match cfg.important_keywords with
  | none => 0
  | some r => if r.terms.any (fun t => pyIn t (pyLower subject)) then r.score else 0

/-- Blacklist contribution of _calculate_importance_score: two points
subtracted for every blacklist entry occurring in the lower-cased
subject+from+body. -/
def blacklist_contrib (blacklist : List String) (text : String) : Int :=
  -2 * (blacklist.countP (fun t => pyIn t text) : Int)

/-- Contact-bonus contribution of _calculate_importance_score: runs only
when self.contacts is set and the contact_bonus section is configured;
adds the from-contact bonus, then either the full-name bonus or the
independent first-name and last-name bonuses, then the organization
bonus. -/
def contact_contrib (contacts : Option Contacts) (cfg : ScoringConfig)
    (e : EmailData) (text : String) : Int :=
  match contacts, cfg.contact_bonus with
  | some c, some cb =>
      (if e.is_from_contact then cb.from_contact else 0)
      + (let sender_name := pyLower (pyStrip ((pySplitOnChar '<' e.«from»).headD ""))
         if sender_name ∈ c.names then cb.full_name_match
         else
           let name_parts := pySplitWs sender_name
           (if name_parts.any (fun p => p ∈ c.first_names) then cb.first_name_match else 0)
           + (if name_parts.any (fun p => p ∈ c.last_names) then cb.last_name_match else 0))
      + (if c.organizations.any (fun org => pyIn org text) then cb.organization_match else 0)
  | _, _ => 0

/-- Reply contribution of _calculate_importance_score: the configured
is_reply score when the reply_bonus section exists and the message is a
reply. -/
def reply_contrib (cfg : ScoringConfig) (is_reply : Bool) : Int :=
  match cfg.reply_bonus with
  | none => 0
  | some rb => if is_reply then rb else 0

/-- Sum of the non-billing rules of _calculate_importance_score, in the
order the Python accumulates them into the score variable. -/
def score_rules (cfg : ScoringConfig) (contacts : Option Contacts)
    (blacklist : List String) (e : EmailData) : Int :=
  financial_contrib cfg (text_to_check e)
  + receipts_contrib cfg (text_to_check e)
  + keywords_contrib cfg e.subject
  + blacklist_contrib blacklist (text_to_check e)
  + contact_contrib contacts cfg e (text_to_check e)
  + reply_contrib cfg e.is_reply

/-- The _calculate_importance_score method. The billing_addresses rule
is the only early return: when the section exists and any configured
address occurs in the lower-cased to header, its score is returned at
once and no other rule runs. -/
def calculate_importance_score (cfg : ScoringConfig) (contacts : Option Contacts)
    (blacklist : List String) (e : EmailData) : Int :=
  match cfg.billing_addresses with
  | some br =>
      if br.addresses.any (fun addr => pyIn addr (pyLower e.«to»)) then br.score
      else score_rules cfg contacts blacklist e
  | none => score_rules cfg contacts blacklist e

/-- Month-abbreviation table of the RFC-2822 date grammar. -/
def monthIndex (s : String) : Option Nat :=
  if s = "Jan" then some 1 else if s = "Feb" then some 2
  else if s = "Mar" then some 3 else if s = "Apr" then some 4
  else if s = "May" then some 5 else if s = "Jun" then some 6
  else if s = "Jul" then some 7 else if s = "Aug" then some 8
  else if s = "Sep" then some 9 else if s = "Oct" then some 10
  else if s = "Nov" then some 11 else if s = "Dec" then some 12
  else none

/-- Instants are modelled as ticks since the Python datetime.min value
(which is therefore tick 0); the encoding is strictly monotone in the
calendar fields. -/
def ticksOf (y mo d h mi s : Nat) : Nat :=
  ((((y * 12 + mo) * 32 + d) * 24 + h) * 60 + mi) * 60 + s

/-- Parse an HH:MM:SS component, with the field bounds the Python
datetime constructor enforces (failures there are caught and turn into
a parse failure). -/
def parseHMS (s : String) : Option (Nat × Nat × Nat) :=
  match (pySplitOnChar ':' s).map pyToNat with
  | [some h, some mi, some se] =>
      if h ≤ 23 ∧ mi ≤ 59 ∧ se ≤ 61 then some (h, mi, se) else none
  | _ => none

/-- Parse a numeric timezone token of the form +HHMM or -HHMM into a
direction flag (true for east of UTC) and a minute count. -/
def parseOffset (s : String) : Option (Bool × Nat) :=
  match s.data with
  | c :: rest =>
      if (c = '+' ∨ c = '-') ∧ rest.length = 4 then
        match digitsToNatGo 0 rest with
        | some n => some (c = '+', n / 100 * 60 + n % 100)
        | none => none
      else none
  | [] => none

/-- Python datetime value as the _merge_emails sort key sees it: a tick
count since the Python datetime.min value (tick 0), tagged naive or
timezone-aware. Python refuses to order a naive against an aware
datetime (TypeError); the tag lets the sort model reproduce that error
path. -/
inductive PyDateTime where
  | naive (ticks : Nat)
  | aware (ticks : Nat)
deriving DecidableEq

/-- Tick count of a datetime value (UTC ticks for aware values). -/
def PyDateTime.ticks : PyDateTime → Nat
  | naive t => t
  | aware t => t

/-- Awareness tag of a datetime value. -/
def PyDateTime.isAware : PyDateTime → Bool
  | naive _ => false
  | aware _ => true

/-- Combine a naive local instant with a timezone token the way the
parsedate_tz worker does: the named zones GMT, UT and UTC yield an
aware UTC instant; a numeric +HHMM or -HHMM offset yields an aware UTC
instant, except that the literal -0000 (zero offset written with a
minus sign) is the RFC-2822 convention for an unknown zone and yields a
naive instant. -/
def applyZone (t : Nat) (zone : String) : Option PyDateTime :=
  if zone = "GMT" ∨ zone = "UT" ∨ zone = "UTC" then some (PyDateTime.aware t)
  else
    match parseOffset zone with
    | some (east, m) =>
        if east = false ∧ m = 0 then some (PyDateTime.naive t)
        else some (PyDateTime.aware (if east then t - m * 60 else t + m * 60))
    | none => none

/-- Parse the day / month-name / year / time-of-day core shared by every
RFC-2822 variant, yielding a naive local instant. -/
def parseRFCCore (dd mon yy hms : String) : Option Nat :=
  match pyToNat dd, monthIndex mon, pyToNat yy, parseHMS hms with
  | some d, some m, some y, some (h, mi, se) =>
      if 1 ≤ d ∧ d ≤ 31 ∧ 1 ≤ y then some (ticksOf y m d h mi se) else none
  | _, _, _, _ => none

/-- Modelled from the spec: RFC-2822 header parsing (the Python stdlib
function email.utils.parsedate_to_datetime, an external collaborator of
the DateNormalizer contract), restricted to the day-month-year-time
shapes with optional weekday and optional trailing zone (numeric or the
GMT, UT, UTC names) that the repository feeds it. A date without a
usable zone yields a naive value, one with a zone an aware value, as
the stdlib does. -/
def parsedate_to_datetime (s : String) : Option PyDateTime :=
  match pySplitWs s with
  | [a, b, c, d] => (parseRFCCore a b c d).map PyDateTime.naive
  | [a, b, c, d, e] =>
      if pyEndsWith "," a then (parseRFCCore b c d e).map PyDateTime.naive
      else (parseRFCCore a b c d).bind (fun t => applyZone t e)
  | [a, b, c, d, e, f] =>
      if pyEndsWith "," a then (parseRFCCore b c d e).bind (fun t => applyZone t f)
      else none
  | _ => none

/-- Modelled from the spec: the strptime fallback with the explicit
pattern weekday-comma day month year time numeric-offset, the first
legacy format of the merge ordering chain. A matched numeric offset
always yields an aware value here (strptime attaches the zone even for
-0000). -/
def strptime_rfc2822_z (s : String) : Option PyDateTime :=
  match pySplitWs s with
  | [a, b, c, d, e, f] =>
      if pyEndsWith "," a then
        (parseRFCCore b c d e).bind (fun t =>
          match parseOffset f with
          | some (east, m) =>
              some (PyDateTime.aware (if east then t - m * 60 else t + m * 60))
          | none => none)
      else none
  | _ => none

/-- Modelled from the spec: the strptime fallback with a named timezone
component, the second legacy format of the merge ordering chain. A
matched named zone yields a NAIVE value (strptime leaves tzinfo unset
for a %Z match). -/
def strptime_rfc2822_named (s : String) : Option PyDateTime :=
  match pySplitWs s with
  | [a, b, c, d, e, f] =>
      if pyEndsWith "," a ∧ (f = "UTC" ∨ f = "GMT") then
        (parseRFCCore b c d e).map PyDateTime.naive
      else none
  | _ => none

/-- The get_date key function defined inside _merge_emails: an absent or
empty date resolves to the NAIVE minimum instant (the Python
datetime.min, tick 0), otherwise the fallback chain
parsedate_to_datetime, then the numeric-offset strptime pattern, then
the named-zone strptime pattern, resolving to the naive minimum instant
when every parse fails. The function itself never raises (every parser
error is caught), but its naive results cannot be ordered against its
aware results. -/
def get_date (e : EmailData) : PyDateTime :=
  match e.date with
  | none => PyDateTime.naive 0
  | some date_str =>
      if date_str = "" then PyDateTime.naive 0
      else
        match parsedate_to_datetime date_str with
        | some d => d
        | none =>
            match strptime_rfc2822_z date_str with
            | some d => d
            | none =>
                match strptime_rfc2822_named date_str with
                | some d => d
                | none => PyDateTime.naive 0

/-- Comparator of the model of the Python sorted builtin for the key
get_date with reverse set: a stable sort placing larger keys first.
Python only ever evaluates this comparison between two naive or two
aware keys (anything else raises before a result is produced), and
there it orders by ticks; merge_emails applies this comparator only in
that uniform case. -/
def date_le (a b : EmailData) : Bool :=
  decide ((get_date b).ticks ≤ (get_date a).ticks)

/-- The append loop of _merge_emails: walk the incoming batch, skip any
message whose message_id is already in the seen set, append the rest
while extending the seen set. Returns only the appended messages; the
caller prepends the existing list. -/
def addNew (ids : List (Option String)) : List EmailData → List EmailData
  | [] => []
  | e :: rest =>
      if e.message_id ∈ ids then addNew ids rest
      else e :: addNew (e.message_id :: ids) rest

/-- The deduplicated combination _merge_emails builds before sorting:
the existing list with the fresh incoming messages appended in batch
order. -/
def merge_combined (existing_emails new_emails : List EmailData) : List EmailData :=
  existing_emails ++ addNew (existing_emails.map (fun e => e.message_id)) new_emails

/-- Comparability guard of the final sort of _merge_emails: CPython's
list sort compares keys with the less-than operator, which raises
TypeError between a naive and an aware datetime, and a key list holding
both kinds always performs at least one such cross comparison (the
first one at a kind boundary, during run detection or binary
insertion), so the sort returns exactly when the resolved keys are
uniformly aware or uniformly naive. -/
def merge_sortable (l : List EmailData) : Bool :=
  l.all (fun e => (get_date e).isAware) || l.all (fun e => !(get_date e).isAware)

/-- The _merge_emails method: deduplicate the incoming batch against
the set of existing message_id values (and against itself), then sort
the combined list by resolved date, newest first, with the stable
sorted builtin; none models the TypeError the sort raises on a
collection mixing naive and aware resolved dates. -/
def merge_emails (existing_emails new_emails : List EmailData) : Option (List EmailData) :=
  if merge_sortable (merge_combined existing_emails new_emails) then
    some ((merge_combined existing_emails new_emails).mergeSort date_le)
  else none

/-- Thread-root determination of the first pass of analyze_emails: the
in_reply_to value when truthy, else the first whitespace token of the
references value when that yields any token, else the message's own
message_id. -/
def thread_root (message_id in_reply_to references : Option String) : Option String :=
  let references_list :=
    if truthyS references then pySplitWs (references.getD "") else []
  if truthyS in_reply_to then in_reply_to
  else
    match references_list with
    | t :: _ => some t
    | [] => message_id

/-- The three importance tiers of the summary dictionary built by
generate_summary. -/
structure ImportanceTiers where
  high : Nat
  medium : Nat
  low : Nat
deriving DecidableEq

/-- The importance_scores entry of generate_summary: high counts scores
strictly above five, medium counts scores between zero and five
inclusive, low counts strictly negative scores. -/
def summary_importance_scores (emails : List EmailData) : ImportanceTiers :=
  ⟨(emails.countP (fun e => decide (5 < e.importance_score))),
   (emails.countP (fun e => decide (0 ≤ e.importance_score ∧ e.importance_score ≤ 5))),
   (emails.countP (fun e => decide (e.importance_score < 0)))⟩

/-- The total_emails entry of generate_summary. -/
def summary_total_emails (emails : List EmailData) : Nat := emails.length

/-- First _clean_text substitution: collapse every run of two or more
spaces to a single space (each run keeps its last space). -/
def sub_spaces : List Char → List Char
  | [] => []
  | c :: rest =>
      if c = ' ' ∧ rest.head? = some ' ' then sub_spaces rest
      else c :: sub_spaces rest

/-- Scanner for the image and link substitutions of _clean_text: drop
lazily up to the first closing parenthesis, failing on a newline (the
dot of the pattern does not cross lines). -/
def findCloseParen : List Char → Option (List Char)
  | [] => none
  | c :: rest =>
      if c = ')' then some rest
      else if c = '\n' then none
      else findCloseParen rest

theorem findCloseParen_lt (l : List Char) :
    ∀ r, findCloseParen l = some r → r.length < l.length := by
  induction l with
  | nil => intro r h; simp [findCloseParen] at h
  | cons c rest ih =>
      intro r h
      simp only [findCloseParen] at h
      split_ifs at h with h1 h2
      · cases h; simp
      · exact Nat.lt_trans (ih r h) (by simp)

/-- Scanner for the image substitution of _clean_text: drop lazily up to
the first occurrence of a closing bracket immediately followed by an
opening parenthesis, failing on a newline. -/
def findBracketParen : List Char → Option (List Char)
  | [] => none
  | c :: rest =>
      if c = '\n' then none
      else if c = ']' ∧ rest.head? = some '(' then some rest.tail
      else findBracketParen rest

theorem findBracketParen_lt (l : List Char) :
    ∀ r, findBracketParen l = some r → r.length < l.length := by
  induction l with
  | nil => intro r h; simp [findBracketParen] at h
  | cons c rest ih =>
      intro r h
      simp only [findBracketParen] at h
      split_ifs at h with h1 h2
      · cases h
        have := List.length_tail rest
        simp
        omega
      · exact Nat.lt_trans (ih r h) (by simp)

/-- Matcher for one occurrence of the markdown-image pattern of
_clean_text at the head of the input; returns the remainder after the
matched text. -/
def matchImage (l : List Char) : Option (List Char) :=
  match l with
  | c :: d :: rest =>
      if c = '!' ∧ d = '[' then
        match findBracketParen rest with
        | some r2 => findCloseParen r2
        | none => none
      else none
  | _ => none

theorem matchImage_lt (l : List Char) :
    ∀ r, matchImage l = some r → r.length < l.length := by
  intro r h
  match l, h with
  | [], h => exact absurd h (by simp [matchImage])
  | [c], h => exact absurd h (by simp [matchImage])
  | c :: d :: rest, h =>
      simp only [matchImage] at h
      split_ifs at h with h1
      · cases h2 : findBracketParen rest with
        | none => simp only [h2] at h; cases h
        | some r2 =>
            simp only [h2] at h
            have v2 := findBracketParen_lt rest r2 h2
            have v3 := findCloseParen_lt r2 r h
            simp
            omega

/-- Worker for the image substitution: the fuel argument only bounds the
recursion; by matchImage_lt the scanned list shrinks at every step, so
fuel equal to the input length never runs out. -/
def subImagesGo : Nat → List Char → List Char
  | _, [] => []
  | 0, l => l
  | fuel + 1, c :: rest =>
      match matchImage (c :: rest) with
      | some r => subImagesGo fuel r
      | none => c :: subImagesGo fuel rest

/-- Second _clean_text substitution: delete every occurrence of the
markdown image pattern, scanning left to right and resuming after each
match. -/
def sub_images (l : List Char) : List Char := subImagesGo l.length l

/-- Scanner for the link substitution of _clean_text: split lazily at
the first closing bracket immediately followed by an opening
parenthesis, returning the text before it (the captured group) and the
remainder after it; fails on a newline. -/
def splitBracketParen : List Char → Option (List Char × List Char)
  | [] => none
  | c :: rest =>
      if c = '\n' then none
      else if c = ']' ∧ rest.head? = some '(' then some ([], rest.tail)
      else
        match splitBracketParen rest with
        | some (a, b) => some (c :: a, b)
        | none => none

theorem splitBracketParen_lt (l : List Char) :
    ∀ a b, splitBracketParen l = some (a, b) → b.length < l.length := by
  induction l with
  | nil => intro a b h; simp [splitBracketParen] at h
  | cons c rest ih =>
      intro a b h
      simp only [splitBracketParen] at h
      split_ifs at h with h1 h2
      · cases h
        have := List.length_tail rest
        simp
        omega
      · cases h4 : splitBracketParen rest with
        | none => simp only [h4] at h; cases h
        | some p =>
            obtain ⟨a1, b1⟩ := p
            simp only [h4] at h
            obtain ⟨rfl, rfl⟩ := h
            have := ih a1 b h4
            simp
            omega

/-- Matcher for one occurrence of the markdown-link pattern of
_clean_text at the head of the input; returns the captured text and the
remainder after the matched text. -/
def matchLink (l : List Char) : Option (List Char × List Char) :=
  match l with
  | c :: rest =>
      if c = '[' then
        match splitBracketParen rest with
        | some (g, r2) =>
            match findCloseParen r2 with
            | some r3 => some (g, r3)
            | none => none
        | none => none
      else none
  | [] => none

theorem matchLink_lt (l : List Char) :
    ∀ g r, matchLink l = some (g, r) → r.length < l.length := by
  intro g r h
  match l, h with
  | [], h => exact absurd h (by simp [matchLink])
  | c :: rest, h =>
      simp only [matchLink] at h
      split_ifs at h with h1
      · cases h2 : splitBracketParen rest with
        | none => simp only [h2] at h; cases h
        | some p =>
            obtain ⟨g1, r2⟩ := p
            simp only [h2] at h
            cases h3 : findCloseParen r2 with
            | none => simp only [h3] at h; cases h
            | some r3 =>
                simp only [h3] at h
                obtain ⟨rfl, rfl⟩ := h
                have v2 := splitBracketParen_lt rest _ _ h2
                have v3 := findCloseParen_lt _ _ h3
                simp
                omega

/-- Worker for the link substitution: the fuel argument only bounds the
recursion; by matchLink_lt the scanned list shrinks at every step, so
fuel equal to the input length never runs out. -/
def subLinksGo : Nat → List Char → List Char
  | _, [] => []
  | 0, l => l
  | fuel + 1, c :: rest =>
      match matchLink (c :: rest) with
      | some p => p.1 ++ subLinksGo fuel p.2
      | none => c :: subLinksGo fuel rest

/-- Third _clean_text substitution: replace every markdown link by its
visible text, scanning left to right and resuming after each match
(replacement text is not rescanned). -/
def sub_links (l : List Char) : List Char := subLinksGo l.length l

/-- Worker for the horizontal-rule substitution: pending counts the
dashes of the current run; a finished run of three or more dashes is
deleted, a shorter run is kept. -/
def hrulesGo (pending : Nat) : List Char → List Char
  | [] => if pending ≥ 3 then [] else List.replicate pending '-'
  | c :: rest =>
      if c = '-' then hrulesGo (pending + 1) rest
      else
        (if pending ≥ 3 then [] else List.replicate pending '-')
          ++ c :: hrulesGo 0 rest

/-- Fourth _clean_text substitution: delete every maximal run of three
or more dashes. -/
def sub_hrules (l : List Char) : List Char := hrulesGo 0 l

/-- Fifth _clean_text substitution: collapse every run of two or more
dashes to a single dash (each run keeps its last dash). -/
def sub_dashes : List Char → List Char
  | [] => []
  | c :: rest =>
      if c = '-' ∧ rest.head? = some '-' then sub_dashes rest
      else c :: sub_dashes rest

/-- Emphasis characters of the sixth _clean_text substitution. -/
def isEmph (c : Char) : Bool := c = '*' || c = '_'

/-- Scanner for the emphasis substitution of _clean_text: split lazily
at the first emphasis character (the closer position), failing on a
newline. The returned remainder always starts with an emphasis
character, so it is never empty. -/
def splitEmph : List Char → Option (List Char × List Char)
  | [] => none
  | c :: rest =>
      if c = '\n' then none
      else if isEmph c then some ([], c :: rest)
      else
        match splitEmph rest with
        | some (a, b) => some (c :: a, b)
        | none => none

theorem splitEmph_le (l : List Char) :
    ∀ a b, splitEmph l = some (a, b) → b.length ≤ l.length ∧ b ≠ [] := by
  induction l with
  | nil => intro a b h; simp [splitEmph] at h
  | cons c rest ih =>
      intro a b h
      simp only [splitEmph] at h
      split_ifs at h with h1 h2
      · cases h
        simp
      · cases h4 : splitEmph rest with
        | none => simp only [h4] at h; cases h
        | some p =>
            obtain ⟨a1, b1⟩ := p
            simp only [h4] at h
            obtain ⟨rfl, rfl⟩ := h
            have := ih a1 b h4
            constructor
            · simp
              omega
            · exact this.2

/-- Closer consumption of the emphasis substitution: the closer is two
emphasis characters when two are available (the greedy upper repetition
bound), else one. The input starts with an emphasis character. -/
def closeEmph : List Char → List Char
  | _ :: d :: rest => if isEmph d then rest else d :: rest
  | _ => []

theorem closeEmph_lt (l : List Char) (hne : l ≠ []) :
    (closeEmph l).length < l.length := by
  match l with
  | [] => exact absurd rfl hne
  | [c] => simp [closeEmph]
  | c :: d :: rest =>
      simp only [closeEmph]
      split_ifs <;> simp <;> omega

/-- Matcher for one occurrence of the emphasis pattern of _clean_text
at the head of the input: a greedy opener of one or two emphasis
characters, a lazy middle (the captured group), and a greedy closer of
one or two emphasis characters. When no closer exists after a two
character opener, the regex engine backtracks to a one character
opener, whose middle then stops at the second emphasis character. -/
def matchEmph : List Char → Option (List Char × List Char)
  | c :: d :: rest =>
      if isEmph c then
        if isEmph d then
          match splitEmph rest with
          | some (g, cp) => some (g, closeEmph cp)
          | none =>
              match splitEmph (d :: rest) with
              | some (g, cp) => some (g, closeEmph cp)
              | none => none
        else
          match splitEmph (d :: rest) with
          | some (g, cp) => some (g, closeEmph cp)
          | none => none
      else none
  | _ => none

theorem matchEmph_lt (l : List Char) :
    ∀ g r, matchEmph l = some (g, r) → r.length < l.length := by
  intro g r h
  match l, h with
  | [], h => exact absurd h (by simp [matchEmph])
  | [c], h => exact absurd h (by simp [matchEmph])
  | c :: d :: rest, h =>
      simp only [matchEmph] at h
      split_ifs at h with h1 h2
      · cases h4 : splitEmph rest with
        | none =>
            simp only [h4] at h
            cases h5 : splitEmph (d :: rest) with
            | none => simp only [h5] at h; cases h
            | some p =>
                obtain ⟨g1, cp⟩ := p
                simp only [h5] at h
                obtain ⟨rfl, rfl⟩ := h
                have v1 := splitEmph_le (d :: rest) _ _ h5
                have v2 := closeEmph_lt cp v1.2
                simp at v1 ⊢
                omega
        | some p =>
            obtain ⟨g1, cp⟩ := p
            simp only [h4] at h
            obtain ⟨rfl, rfl⟩ := h
            have v1 := splitEmph_le rest _ _ h4
            have v2 := closeEmph_lt cp v1.2
            simp
            omega
      · cases h5 : splitEmph (d :: rest) with
        | none => simp only [h5] at h; cases h
        | some p =>
            obtain ⟨g1, cp⟩ := p
            simp only [h5] at h
            obtain ⟨rfl, rfl⟩ := h
            have v1 := splitEmph_le (d :: rest) _ _ h5
            have v2 := closeEmph_lt cp v1.2
            simp at v1 ⊢
            omega

/-- Worker for the emphasis substitution: the fuel argument only bounds
the recursion; by matchEmph_lt the scanned list shrinks at every step,
so fuel equal to the input length never runs out. -/
def subEmphGo : Nat → List Char → List Char
  | _, [] => []
  | 0, l => l
  | fuel + 1, c :: rest =>
      match matchEmph (c :: rest) with
      | some p => p.1 ++ subEmphGo fuel p.2
      | none => c :: subEmphGo fuel rest

/-- Sixth _clean_text substitution: strip emphasis markup, keeping the
enclosed text, scanning left to right and resuming after each match. -/
def sub_emph (l : List Char) : List Char := subEmphGo l.length l

/-- Scanner for the tag substitution of _clean_text: drop up to and
including the first closing angle bracket. -/
def splitGt : List Char → Option (List Char)
  | [] => none
  | c :: rest => if c = '>' then some rest else splitGt rest

theorem splitGt_lt (l : List Char) :
    ∀ r, splitGt l = some r → r.length < l.length := by
  induction l with
  | nil => intro r h; simp [splitGt] at h
  | cons c rest ih =>
      intro r h
      simp only [splitGt] at h
      split_ifs at h with h1
      · cases h
        simp
      · exact Nat.lt_trans (ih r h) (by simp)

/-- Worker for the tag substitution: the fuel argument only bounds the
recursion; by splitGt_lt the scanned list shrinks at every step, so
fuel equal to the input length never runs out. -/
def subTagsGo : Nat → List Char → List Char
  | _, [] => []
  | 0, l => l
  | fuel + 1, c :: rest =>
      if c = '<' then
        match rest with
        | d :: rest2 =>
            if d = '>' then c :: subTagsGo fuel (d :: rest2)
            else
              match splitGt rest2 with
              | some r => subTagsGo fuel r
              | none => c :: subTagsGo fuel (d :: rest2)
        | [] => [c]
      else c :: subTagsGo fuel rest

/-- Seventh _clean_text substitution: delete every angle-bracket tag
(an opening bracket, one or more characters other than a closing
bracket, and a closing bracket). -/
def sub_tags (l : List Char) : List Char := subTagsGo l.length l

/-- The _clean_text method: the ordered substitution pipeline (spaces,
images, links, horizontal rules, dashes, emphasis, tags) followed by a
whitespace strip; the empty string short-circuits. -/
def clean_text (text : String) : String :=
  if text = "" then ""
  else
    pyStrip
      ⟨sub_tags (sub_emph (sub_dashes (sub_hrules
        (sub_links (sub_images (sub_spaces text.data))))))⟩

/-- One part of the MIME walk of _parse_email, identified by content
type. The plain and html payloads carry the result of _decode_body for
that part (the empty string when nothing decodes); an application part
carries its optional filename, declared content type, and payload
size. -/
inductive MimePart where
  | plain (decoded : String)
  | html (decoded : String)
  | application (filename : Option String) (content_type : String) (size : Nat)
  | other
deriving DecidableEq

/-- Body accumulation of the _parse_email multipart walk: a text/plain
part overwrites the body whenever its decoded text is non-empty; a
text/html part is consulted only while the body is still empty, its
conversion (the html2text collaborator conv) being cleaned like plain
text; every other part leaves the body unchanged. -/
def walk_body (conv : String → String) : List MimePart → String → String
  | [], body => body
  | MimePart.plain t :: rest, body =>
      walk_body conv rest (if t ≠ "" then clean_text t else body)
  | MimePart.html t :: rest, body =>
      walk_body conv rest
        (if body = "" then (if t ≠ "" then clean_text (conv t) else body) else body)
  | _ :: rest, body => walk_body conv rest body

/-- Attachment accumulation of the _parse_email multipart walk: every
application part with a filename is recorded, the filename passing
through the header decoder hdr. -/
def walk_attachments (hdr : String → String) : List MimePart → List Attachment
  | [] => []
  | MimePart.application (some fn) ct sz :: rest =>
      ⟨hdr fn, ct, sz⟩ :: walk_attachments hdr rest
  | _ :: rest => walk_attachments hdr rest

/-- External stdlib collaborators of _parse_email, passed as explicit
functions: the header decoder (email.header.decode_header with the
joining loop of _decode_email_header for a non-empty header), the
html2text converter, the email_validator normalizer (none models the
exception path), the composition of email.utils.parsedate_to_datetime
with the UTC coercion and isoformat (none models a parse error), and
datetime.fromtimestamp composed with isoformat (none models an
out-of-range error). -/
structure Stdlib where
  decode_hdr : String → String
  html_conv : String → String
  validate_email : String → Option String
  parsedate_iso : String → Option String
  fromtimestamp_iso : Nat → Option String

/-- The _decode_email_header method: a falsy header (absent or empty)
becomes the empty string, anything else goes through the stdlib
decoder. -/
def decode_email_header (hdr : String → String) : Option String → String
  | none => ""
  | some s => if s = "" then "" else hdr s

/-- The date block at the top of _parse_email: a truthy date header is
parsed (success replaces it with the isoformat text, failure clears
it); when the result is falsy and the message id is truthy, the third
dot-separated piece of the message id is read as a Unix timestamp
(milliseconds are detected by magnitude and divided down) and converted
through fromtimestamp; any failure leaves the previous value. -/
def resolve_date_str (lib : Stdlib) (raw_date raw_mid : Option String) : Option String :=
  let date_str1 : Option String :=
    match raw_date with
    | some ds => if ds ≠ "" then lib.parsedate_iso ds else some ds
    | none => none
  if (date_str1 = none ∨ date_str1 = some "") ∧ truthyS raw_mid then
    let msg_id_parts := pySplitOnChar '.' (raw_mid.getD "")
    if msg_id_parts.length ≥ 3 then
      match pyToNat (msg_id_parts.getD 2 "") with
      | some ts =>
          let ts2 := if ts > 1000000000000 then ts / 1000 else ts
          match lib.fromtimestamp_iso ts2 with
          | some iso => some iso
          | none => date_str1
      | none => date_str1
    else date_str1
  else date_str1

/-- The contact check of _parse_email: take the text after the last
opening angle bracket (or the whole stripped header when there is
none), strip closing angle brackets, validate it, and test membership
in the contact emails; every failure path leaves the flag false. -/
def compute_is_from_contact (validate : String → Option String)
    (contacts : Option Contacts) (fromField : String) : Bool :=
  let from_parts := pySplitOnChar '<' fromField
  let cand :=
    if from_parts.length > 1 then pyStripChar '>' (from_parts.getLastD "")
    else pyStrip fromField
  match validate cand with
  | some sender_email =>
      match contacts with
      | some c => sender_email ∈ c.emails
      | none => false
  | none => false

/-- Raw message handed to _parse_email: the headers it reads and the
MIME structure it walks. A multipart message carries its parts in walk
order; a non-multipart message is a single part. -/
structure RawEmail where
  subject : Option String
  «from» : Option String
  «to» : Option String
  date : Option String
  message_id : Option String
  in_reply_to : Option String
  references : Option String
  is_multipart : Bool
  parts : List MimePart
  content : MimePart

/-- The _parse_email method: resolve the date, decode the headers, set
the reply flag from the in-reply-to header, run the contact check, walk
the MIME structure for body and attachments (a non-multipart plain part
is cleaned unconditionally, a non-multipart html part only when its
decode is non-empty), then attach the importance score computed from
the finished record. -/
def parse_email (lib : Stdlib) (contacts : Option Contacts) (cfg : ScoringConfig)
    (blacklist : List String) (raw : RawEmail) : EmailData :=
  let fromField := decode_email_header lib.decode_hdr raw.«from»
  let bodyAtts : String × List Attachment :=
    if raw.is_multipart then
      (walk_body lib.html_conv raw.parts "", walk_attachments lib.decode_hdr raw.parts)
    else
      match raw.content with
      | MimePart.plain t => (clean_text t, [])
      | MimePart.html t => (if t ≠ "" then clean_text (lib.html_conv t) else "", [])
      | _ => ("", [])
  let e0 : EmailData :=
    { subject := decode_email_header lib.decode_hdr raw.subject
      «from» := fromField
      «to» := decode_email_header lib.decode_hdr raw.«to»
      date := resolve_date_str lib raw.date raw.message_id
      message_id := raw.message_id
      in_reply_to := raw.in_reply_to
      references := raw.references
      is_reply := truthyS raw.in_reply_to
      is_from_contact := compute_is_from_contact lib.validate_email contacts fromField
      body := bodyAtts.1
      attachments := bodyAtts.2
      importance_score := 0 }
  { e0 with importance_score := calculate_importance_score cfg contacts blacklist e0 }

/-- Persisted form of contacts.json as read by _load_contacts. -/
structure ContactsFile where
  emails : List String
  names : List String
  first_names : List String
  last_names : List String
  organizations : List String

/-- The _load_contacts method: when verbose output is disabled it
returns before touching the contacts file, leaving self.contacts unset
(none); otherwise it builds the directory from the file, or an
all-empty (but set, hence truthy) directory when the file is absent. -/
def load_contacts (verbose : Bool) (file : Option ContactsFile) : Option Contacts :=
  if !verbose then none
  else
    some
      (match file with
        | some d => ⟨d.emails, d.names, d.first_names, d.last_names, d.organizations⟩
        | none => ⟨[], [], [], [], []⟩)

/-- Sorting a two-element list with a stable merge sort compares the
two elements once. -/
theorem mergeSort_pair {α : Type} (le : α → α → Bool) (a b : α) :
    [a, b].mergeSort le = if le a b then [a, b] else [b, a] := by
  rw [List.mergeSort]
  simp [List.splitInTwo, List.splitAt, List.splitAt.go, List.merge]

/-- The merge comparator is transitive. -/
theorem date_le_trans : ∀ a b c : EmailData, date_le a b → date_le b c → date_le a c := by
  intro a b c h1 h2
  simp only [date_le, decide_eq_true_eq] at h1 h2 ⊢
  omega

/-- The merge comparator is total. -/
theorem date_le_total : ∀ a b : EmailData, date_le a b || date_le b a := by
  intro a b
  simp only [date_le, Bool.or_eq_true, decide_eq_true_eq]
  omega

/-- The append loop adds nothing from an empty batch. -/
theorem addNew_nil_incoming (ids : List (Option String)) : addNew ids [] = [] := rfl

/-- The append loop emits a sublist of the incoming batch, in order. -/
theorem addNew_sublist (ids : List (Option String)) (xs : List EmailData) :
    (addNew ids xs).Sublist xs := by
  induction xs generalizing ids with
  | nil => simp [addNew]
  | cons x t ih =>
      simp only [addNew]
      split_ifs with h
      · exact (ih ids).trans (List.sublist_cons_self x t)
      · exact (ih (x.message_id :: ids)).cons₂ x

/-- No message emitted by the append loop has an identifier that was
already in the seen set. -/
theorem addNew_ids_fresh (ids : List (Option String)) (xs : List EmailData) :
    ∀ m ∈ (addNew ids xs).map (fun e => e.message_id), m ∉ ids := by
  induction xs generalizing ids with
  | nil => simp [addNew]
  | cons x t ih =>
      simp only [addNew]
      split_ifs with h
      · exact ih ids
      · intro m hm
        simp only [List.map_cons, List.mem_cons] at hm
        cases hm with
        | inl h1 => subst h1; exact h
        | inr h2 =>
            intro hmem
            exact ih (x.message_id :: ids) m h2 (List.mem_cons_of_mem _ hmem)

/-- The identifiers emitted by the append loop are pairwise distinct. -/
theorem addNew_ids_nodup (ids : List (Option String)) (xs : List EmailData) :
    ((addNew ids xs).map (fun e => e.message_id)).Nodup := by
  induction xs generalizing ids with
  | nil => simp [addNew]
  | cons x t ih =>
      simp only [addNew]
      split_ifs with h
      · exact ih ids
      · simp only [List.map_cons, List.nodup_cons]
        exact ⟨fun hmem =>
          addNew_ids_fresh (x.message_id :: ids) t x.message_id hmem (List.mem_cons_self _ _),
          ih _⟩

/-- Every identifier of the incoming batch ends up covered: it was in
the seen set already or it is emitted by the append loop. -/
theorem addNew_covers (ids : List (Option String)) (xs : List EmailData) :
    ∀ y ∈ xs,
      y.message_id ∈ ids ∨ y.message_id ∈ (addNew ids xs).map (fun e => e.message_id) := by
  induction xs generalizing ids with
  | nil => simp
  | cons x t ih =>
      intro y hy
      simp only [List.mem_cons] at hy
      simp only [addNew]
      split_ifs with h
      · cases hy with
        | inl h1 => subst h1; exact Or.inl h
        | inr h2 => exact ih ids y h2
      · cases hy with
        | inl h1 => subst h1; exact Or.inr (by simp)
        | inr h2 =>
            rcases ih (x.message_id :: ids) y h2 with h3 | h3
            · rcases List.mem_cons.mp h3 with h4 | h4
              · exact Or.inr (by simp [h4])
              · exact Or.inl h4
            · exact Or.inr (by simp [h3])

/-- The append loop emits nothing when every incoming identifier is
already seen. -/
theorem addNew_all_mem (ids : List (Option String)) (xs : List EmailData)
    (h : ∀ x ∈ xs, x.message_id ∈ ids) : addNew ids xs = [] := by
  induction xs with
  | nil => rfl
  | cons x t ih =>
      simp only [addNew]
      rw [if_pos (h x (by simp))]
      exact ih (fun y hy => h y (by simp [hy]))

/-- A list whose mapped identifiers are pairwise distinct holds any
given identifier at most once. -/
theorem countP_id_le_one (A : List EmailData) (v : Option String)
    (h : ((A.map (fun e => e.message_id))).Nodup) :
    A.countP (fun e => decide (e.message_id = v)) ≤ 1 := by
  induction A with
  | nil => simp
  | cons a t ih =>
      simp only [List.map_cons, List.nodup_cons] at h
      rw [List.countP_cons]
      by_cases hv : a.message_id = v
      · have hzero : t.countP (fun e => decide (e.message_id = v)) = 0 := by
          rw [List.countP_eq_zero]
          intro e he
          simp only [decide_eq_true_eq]
          intro heq
          exact h.1 (List.mem_map.2 ⟨e, he, by rw [heq, hv]⟩)
        simp [hv, hzero]
      · simp only [hv, decide_False]
        simpa using ih h.2

/-- A list holding no message with the given identifier counts it
zero times. -/
theorem countP_id_eq_zero (A : List EmailData) (v : Option String)
    (h : v ∉ A.map (fun e => e.message_id)) :
    A.countP (fun e => decide (e.message_id = v)) = 0 := by
  rw [List.countP_eq_zero]
  intro e he
  simp only [decide_eq_true_eq]
  intro heq
  exact h (List.mem_map.2 ⟨e, he, heq⟩)

/-!
Claim theorems.
-/

/-- C1: for every message and every scoring configuration containing a
billing_addresses rule, if the lower-cased to header contains any
configured billing address as a substring, the importance scorer
returns exactly that rule's configured score, with no contribution from
any other rule — in particular a blacklist term present in the message
does not alter the result. -/
theorem billing_short_circuit (cfg : ScoringConfig) (contacts : Option Contacts)
    (blacklist : List String) (e : EmailData) (br : BillingRule)
    (hb : cfg.billing_addresses = some br)
    (hm : br.addresses.any (fun addr => pyIn addr (pyLower e.«to»)) = true) :
    calculate_importance_score cfg contacts blacklist e = br.score := by
  unfold calculate_importance_score
  rw [hb]
  simp [hm]

/-- Message for the C1 witness: its to header carries the configured
billing address in different casing, and its subject carries a
blacklisted term. -/
def c1Email : EmailData :=
  { subject := "spam invoice", «from» := "a@b", «to» := "Billing@X.com, other@y"
    date := none, message_id := some "m1", in_reply_to := none, references := none
    is_reply := false, is_from_contact := false, body := "", attachments := []
    importance_score := 0 }

/-- Configuration for the C1 witness: a billing rule of score 100 next
to every other section. -/
def c1Config : ScoringConfig :=
  { billing_addresses := some ⟨["billing@x.com"], 100⟩
    financial_documents := some ⟨["invoice"], 5⟩
    receipts := some ⟨["receipt"], -3⟩
    important_keywords := some ⟨["invoice"], 4⟩
    contact_bonus := some ⟨1, 2, 3, 4, 5⟩
    reply_bonus := some 7 }

theorem billing_short_circuit_witness :
    c1Config.billing_addresses = some ⟨["billing@x.com"], 100⟩
    ∧ ((["billing@x.com"] : List String).any
        (fun addr => pyIn addr (pyLower c1Email.«to»))) = true
    ∧ calculate_importance_score c1Config none ["spam"] c1Email = 100 :=
  ⟨rfl, by decide,
    billing_short_circuit c1Config none ["spam"] c1Email ⟨["billing@x.com"], 100⟩ rfl (by decide)⟩

/-- C6: the thread-root token of a message is its in_reply_to when
truthy; otherwise the first whitespace token of its references when
references yields any token; otherwise its own message_id — so a
message with neither field is its own root. -/
theorem thread_root_priority (message_id in_reply_to references : Option String) :
    (truthyS in_reply_to = true →
      thread_root message_id in_reply_to references = in_reply_to)
    ∧ (∀ t ts, truthyS in_reply_to = false →
        (if truthyS references then pySplitWs (references.getD "") else []) = t :: ts →
        thread_root message_id in_reply_to references = some t)
    ∧ (truthyS in_reply_to = false →
        (if truthyS references then pySplitWs (references.getD "") else []) = [] →
        thread_root message_id in_reply_to references = message_id)
    ∧ (in_reply_to = none → references = none →
        thread_root message_id in_reply_to references = message_id) := by
  refine ⟨?_, ?_, ?_, ?_⟩
  · intro h
    simp [thread_root, h]
  · intro t ts h hl
    simp [thread_root, h, hl]
  · intro h hl
    simp [thread_root, h, hl]
  · intro h1 h2
    subst h1
    subst h2
    simp [thread_root, truthyS]

theorem thread_root_priority_witness :
    thread_root (some "C") none (some "A B") = some "A"
    ∧ thread_root (some "C") none none = some "C" :=
  ⟨(thread_root_priority (some "C") none (some "A B")).2.1 "A" ["B"] (by decide) (by decide),
   (thread_root_priority (some "C") none none).2.2.2 rfl rfl⟩

/-- C7 (amended): with the scoring configuration entirely absent the
scorer never errs and returns minus two points per matching blacklist
entry — zero for every message and contact directory once the blacklist
matches nothing, but not zero for every blacklist — and the absence of
any single configuration section disables exactly that rule, its
contribution collapsing to zero. -/
theorem empty_config_score (contacts : Option Contacts) (blacklist : List String)
    (e : EmailData) :
    (calculate_importance_score emptyConfig contacts blacklist e
      = -2 * (blacklist.countP (fun t => pyIn t (text_to_check e)) : Int))
    ∧ (blacklist.countP (fun t => pyIn t (text_to_check e)) = 0 →
        calculate_importance_score emptyConfig contacts blacklist e = 0)
    ∧ (∀ cfg : ScoringConfig, cfg.financial_documents = none →
        financial_contrib cfg (text_to_check e) = 0)
    ∧ (∀ cfg : ScoringConfig, cfg.receipts = none →
        receipts_contrib cfg (text_to_check e) = 0)
    ∧ (∀ cfg : ScoringConfig, cfg.important_keywords = none →
        keywords_contrib cfg e.subject = 0)
    ∧ (∀ cfg : ScoringConfig, cfg.contact_bonus = none →
        contact_contrib contacts cfg e (text_to_check e) = 0)
    ∧ (∀ cfg : ScoringConfig, cfg.reply_bonus = none →
        reply_contrib cfg e.is_reply = 0)
    ∧ (∀ cfg : ScoringConfig, ∀ c : Option Contacts, ∀ bl : List String,
        cfg.billing_addresses = none →
        calculate_importance_score cfg c bl e = score_rules cfg c bl e) := by
  have hmain : calculate_importance_score emptyConfig contacts blacklist e
      = -2 * (blacklist.countP (fun t => pyIn t (text_to_check e)) : Int) := by
    cases contacts <;>
      simp [calculate_importance_score, score_rules, emptyConfig, financial_contrib,
        receipts_contrib, keywords_contrib, blacklist_contrib, contact_contrib,
        reply_contrib]
  refine ⟨hmain, ?_, ?_, ?_, ?_, ?_, ?_, ?_⟩
  · intro h0
    rw [hmain, h0]
    simp
  · intro cfg h
    simp [financial_contrib, h]
  · intro cfg h
    simp [receipts_contrib, h]
  · intro cfg h
    simp [keywords_contrib, h]
  · intro cfg h
    cases contacts <;> simp [contact_contrib, h]
  · intro cfg h
    simp [reply_contrib, h]
  · intro cfg c bl h
    simp [calculate_importance_score, h]

/-- Message for the C7 counterexample: its subject carries a
blacklisted term while the configuration is empty. -/
def c7Email : EmailData :=
  { subject := "spam offer", «from» := "a@b", «to» := "me@x"
    date := none, message_id := some "m7", in_reply_to := none, references := none
    is_reply := false, is_from_contact := false, body := "", attachments := []
    importance_score := 0 }

theorem empty_config_score_counterexample :
    calculate_importance_score emptyConfig none ["spam"] c7Email = -2
    ∧ ((-2 : Int) = 0 → False) :=
  ⟨by decide, by decide⟩

theorem empty_config_score_witness :
    ((["nomatch"] : List String).countP (fun t => pyIn t (text_to_check c7Email)) = 0)
    ∧ calculate_importance_score emptyConfig none ["nomatch"] c7Email = 0 :=
  ⟨by decide, (empty_config_score none ["nomatch"] c7Email).2.1 (by decide)⟩

/-- C10: the summary tiers partition the messages with strict
thresholds — high for scores above five, medium for scores from zero to
five inclusive (so exactly five and exactly zero are medium), low for
negative scores — and the three counts always sum to the total email
count. -/
theorem summary_tiers_partition (emails : List EmailData) :
    ((summary_importance_scores emails).high + (summary_importance_scores emails).medium
      + (summary_importance_scores emails).low = summary_total_emails emails)
    ∧ (∀ e : EmailData,
        (5 < e.importance_score
            ∧ ¬(0 ≤ e.importance_score ∧ e.importance_score ≤ 5)
            ∧ ¬(e.importance_score < 0))
        ∨ (¬(5 < e.importance_score)
            ∧ (0 ≤ e.importance_score ∧ e.importance_score ≤ 5)
            ∧ ¬(e.importance_score < 0))
        ∨ (¬(5 < e.importance_score)
            ∧ ¬(0 ≤ e.importance_score ∧ e.importance_score ≤ 5)
            ∧ e.importance_score < 0))
    ∧ (∀ e : EmailData, e.importance_score = 5 ∨ e.importance_score = 0 →
        (0 ≤ e.importance_score ∧ e.importance_score ≤ 5)
        ∧ ¬(5 < e.importance_score) ∧ ¬(e.importance_score < 0)) := by
  refine ⟨?_, ?_, ?_⟩
  · induction emails with
    | nil => simp [summary_importance_scores, summary_total_emails]
    | cons a t ih =>
        simp only [summary_importance_scores, summary_total_emails, List.countP_cons,
          List.length_cons, Bool.decide_and] at ih ⊢
        by_cases h1 : 5 < a.importance_score <;>
          by_cases h2 : 0 ≤ a.importance_score <;>
            by_cases h3 : a.importance_score ≤ 5 <;>
              by_cases h4 : a.importance_score < 0 <;>
                simp [h1, h2, h3, h4] <;> omega
  · intro e
    omega
  · intro e h
    omega

/-- Message list for the C10 witness: one message per tier plus the two
boundary scores five and zero. -/
def c10Emails : List EmailData :=
  [{ c7Email with importance_score := 6 },
   { c7Email with importance_score := 5 },
   { c7Email with importance_score := 0 },
   { c7Email with importance_score := -1 }]

theorem summary_tiers_partition_witness :
    ((summary_importance_scores c10Emails).high + (summary_importance_scores c10Emails).medium
      + (summary_importance_scores c10Emails).low = summary_total_emails c10Emails)
    ∧ ((0 ≤ ({ c7Email with importance_score := 5 } : EmailData).importance_score
          ∧ ({ c7Email with importance_score := 5 } : EmailData).importance_score ≤ 5)
        ∧ ¬(5 < ({ c7Email with importance_score := 5 } : EmailData).importance_score)
        ∧ ¬(({ c7Email with importance_score := 5 } : EmailData).importance_score < 0)) :=
  ⟨(summary_tiers_partition c10Emails).1,
   (summary_tiers_partition c10Emails).2.2 _ (Or.inl (by decide))⟩

/-- Characterization of a successful merge: some list is returned
exactly when the deduplicated combination passes the comparability
guard, and that list is its stable sort. -/
theorem merge_emails_eq_some (existing incoming merged : List EmailData) :
    merge_emails existing incoming = some merged ↔
      merge_sortable (merge_combined existing incoming) = true
      ∧ merged = (merge_combined existing incoming).mergeSort date_le := by
  unfold merge_emails
  split_ifs with hg
  · simp [hg, eq_comm]
  · simp [hg]

/-- Characterization of a failing merge (the modelled TypeError): none
is returned exactly when the guard fails. -/
theorem merge_emails_eq_none (existing incoming : List EmailData) :
    merge_emails existing incoming = none ↔
      merge_sortable (merge_combined existing incoming) = false := by
  unfold merge_emails
  split_ifs with hg
  · simp [hg]
  · simp only [Bool.not_eq_true] at hg
    simp [hg]

/-- The all-tests of the comparability guard transfer along
permutations. -/
theorem all_of_perm (p : EmailData → Bool) {l1 l2 : List EmailData} (h : l1.Perm l2) :
    l1.all p = l2.all p := by
  rw [Bool.eq_iff_iff]
  simp only [List.all_eq_true]
  exact ⟨fun H x hx => H x (h.mem_iff.2 hx), fun H x hx => H x (h.mem_iff.1 hx)⟩

/-- Comparability of a collection transfers along permutations. -/
theorem merge_sortable_of_perm {l1 l2 : List EmailData} (h : l1.Perm l2) :
    merge_sortable l1 = merge_sortable l2 := by
  unfold merge_sortable
  rw [all_of_perm _ h, all_of_perm _ h]

/-- Evaluation helper: a merge whose deduplicated combination is a
comparable pair returns the pair sort. -/
theorem merge_emails_pair (existing incoming : List EmailData) (a b : EmailData)
    (hcomb : merge_combined existing incoming = [a, b])
    (hsort : merge_sortable [a, b] = true) :
    merge_emails existing incoming = some (if date_le a b then [a, b] else [b, a]) := by
  unfold merge_emails
  rw [hcomb, if_pos hsort, mergeSort_pair]

/-- Membership in the seen set is all the append loop consults, so two
seen sets with the same members produce the same output. -/
theorem addNew_congr (ids1 ids2 : List (Option String)) (xs : List EmailData)
    (h : ∀ v, v ∈ ids1 ↔ v ∈ ids2) : addNew ids1 xs = addNew ids2 xs := by
  induction xs generalizing ids1 ids2 with
  | nil => rfl
  | cons x t ih =>
      simp only [addNew]
      by_cases hx : x.message_id ∈ ids1
      · rw [if_pos hx, if_pos ((h _).1 hx)]
        exact ih ids1 ids2 h
      · rw [if_neg hx, if_neg (fun hc => hx ((h _).2 hc))]
        congr 1
        exact ih _ _ (fun v => by simp [List.mem_cons, h v])

/-- A message whose identifier is already seen — in the initial seen
set or carried by an earlier incoming message — is a no-op for the
append loop: the output is as if the message were not in the batch. -/
theorem addNew_drop (ids : List (Option String)) (pre post : List EmailData) (e : EmailData)
    (h : e.message_id ∈ ids ∨ e.message_id ∈ pre.map (fun x => x.message_id)) :
    addNew ids (pre ++ e :: post) = addNew ids (pre ++ post) := by
  induction pre generalizing ids with
  | nil =>
      rcases h with h | h
      · simp only [List.nil_append, addNew, if_pos h]
      · simp at h
  | cons x t ih =>
      simp only [List.cons_append, addNew]
      by_cases hx : x.message_id ∈ ids
      · rw [if_pos hx, if_pos hx]
        apply ih
        rcases h with h | h
        · exact Or.inl h
        · simp only [List.map_cons, List.mem_cons] at h
          rcases h with h1 | h1
          · exact Or.inl (by rw [h1]; exact hx)
          · exact Or.inr h1
      · rw [if_neg hx, if_neg hx]
        congr 1
        apply ih
        rcases h with h | h
        · exact Or.inl (List.mem_cons_of_mem _ h)
        · simp only [List.map_cons, List.mem_cons] at h
          rcases h with h1 | h1
          · exact Or.inl (by rw [h1]; exact List.mem_cons_self _ _)
          · exact Or.inr h1

/-- A message whose identifier is fresh — absent from the initial seen
set and from every earlier incoming message — is appended by the loop
right after the messages appended from the earlier prefix, and the
suffix is processed with the enlarged seen set. -/
theorem addNew_keep (ids : List (Option String)) (pre post : List EmailData) (e : EmailData)
    (h1 : e.message_id ∉ ids) (h2 : e.message_id ∉ pre.map (fun x => x.message_id)) :
    addNew ids (pre ++ e :: post)
      = addNew ids pre
        ++ e :: addNew (e.message_id
            :: (addNew ids pre).map (fun x => x.message_id) ++ ids) post := by
  induction pre generalizing ids with
  | nil =>
      simp only [List.nil_append, addNew, if_neg h1, List.map_nil]
      rfl
  | cons x t ih =>
      simp only [List.map_cons, List.mem_cons, not_or] at h2
      obtain ⟨hne, h2t⟩ := h2
      simp only [List.cons_append, addNew]
      by_cases hx : x.message_id ∈ ids
      · rw [if_pos hx, if_pos hx]
        simp only [List.append_eq]
        exact ih ids h1 h2t
      · rw [if_neg hx, if_neg hx]
        simp only [List.append_eq]
        rw [ih (x.message_id :: ids) (by simp [List.mem_cons, hne, h1]) h2t]
        simp only [List.map_cons, List.cons_append]
        have hsame : addNew (e.message_id
              :: ((addNew (x.message_id :: ids) t).map (fun x => x.message_id)
                ++ x.message_id :: ids)) post
            = addNew (e.message_id :: x.message_id
              :: ((addNew (x.message_id :: ids) t).map (fun x => x.message_id) ++ ids)) post := by
          apply addNew_congr
          intro v
          simp only [List.mem_cons, List.mem_append]
          tauto
        rw [hsame]

/-- C2 (amended): provided the existing collection holds each non-empty
message_id at most once, merge never adds an incoming message whose
message_id already occurs in the existing collection or earlier in the
incoming batch: whenever the final re-sort succeeds (on a collection
mixing naive and aware resolved dates _merge_emails raises TypeError
instead of returning), the merged result is a permutation of the
existing messages followed by a sublist of the incoming batch whose
identifiers are pairwise distinct and disjoint from the existing ones,
every existing message survives, and each non-empty message_id occurs
at most once. -/
theorem merge_dedup (existing incoming : List EmailData)
    (hex : ∀ s : String, s ≠ "" →
      existing.countP (fun e => decide (e.message_id = some s)) ≤ 1) :
    (∀ merged, merge_emails existing incoming = some merged →
      (∀ s : String, s ≠ "" →
        merged.countP (fun e => decide (e.message_id = some s)) ≤ 1)
      ∧ (∀ e ∈ existing, e ∈ merged)
      ∧ merged.Perm
          (existing ++ addNew (existing.map (fun e => e.message_id)) incoming))
    ∧ ((addNew (existing.map (fun e => e.message_id)) incoming).Sublist incoming)
    ∧ (∀ m ∈ (addNew (existing.map (fun e => e.message_id)) incoming).map
          (fun e => e.message_id),
        m ∉ existing.map (fun e => e.message_id))
    ∧ (((addNew (existing.map (fun e => e.message_id)) incoming).map
        (fun e => e.message_id)).Nodup) := by
  refine ⟨?_, addNew_sublist _ incoming, addNew_ids_fresh _ incoming,
    addNew_ids_nodup _ incoming⟩
  intro merged hm
  rw [merge_emails_eq_some] at hm
  have hperm : merged.Perm
      (existing ++ addNew (existing.map (fun e => e.message_id)) incoming) := by
    rw [hm.2]
    exact List.mergeSort_perm _ _
  refine ⟨?_, ?_, hperm⟩
  · intro s hs
    rw [hperm.countP_eq, List.countP_append]
    by_cases hmem : (some s : Option String) ∈ existing.map (fun e => e.message_id)
    · have hz : (addNew (existing.map (fun e => e.message_id)) incoming).countP
          (fun e => decide (e.message_id = some s)) = 0 := by
        rw [List.countP_eq_zero]
        intro e he
        simp only [decide_eq_true_eq]
        intro heq
        exact addNew_ids_fresh _ incoming e.message_id
          (List.mem_map.2 ⟨e, he, rfl⟩) (by rw [heq]; exact hmem)
      rw [hz]
      simpa using hex s hs
    · have hz : existing.countP (fun e => decide (e.message_id = some s)) = 0 :=
        countP_id_eq_zero existing (some s) hmem
      rw [hz]
      simpa using countP_id_le_one _ (some s) (addNew_ids_nodup _ incoming)
  · intro e he
    exact hperm.symm.mem_iff.1 (List.mem_append_left _ he)

/-- Message with a duplicated identifier for the C2 counterexample. -/
def c2Dup : EmailData :=
  { subject := "s", «from» := "f", «to» := "t"
    date := none, message_id := some "a", in_reply_to := none, references := none
    is_reply := false, is_from_contact := false, body := "", attachments := []
    importance_score := 0 }

/-- C2 counterexample: when the existing collection itself holds the
same non-empty message_id twice, the merge succeeds (uniform undated
keys) and the merged result still holds that id twice, refuting the
unconditional at-most-once reading of the claim. -/
theorem merge_dedup_counterexample :
    merge_emails [c2Dup, c2Dup] [] = some [c2Dup, c2Dup]
    ∧ ([c2Dup, c2Dup] : List EmailData).countP
        (fun e => decide (e.message_id = some "a")) = 2 := by
  constructor
  · have h := merge_emails_pair [c2Dup, c2Dup] [] c2Dup c2Dup (by decide) (by decide)
    rw [show date_le c2Dup c2Dup = true from by decide] at h
    simpa using h
  · decide

/-- Existing message for the C2 witness. -/
def c2Old : EmailData :=
  { c2Dup with
    message_id := some "a"
    subject := "old" }

/-- Incoming duplicate of the existing message for the C2 witness. -/
def c2NewDup : EmailData :=
  { c2Dup with
    message_id := some "a"
    subject := "changed" }

/-- Fresh incoming message for the C2 witness. -/
def c2Fresh : EmailData :=
  { c2Dup with
    message_id := some "b"
    subject := "fresh" }

theorem merge_dedup_witness :
    (([c2Old, c2Fresh] : List EmailData).countP
        (fun e => decide (e.message_id = some "a")) ≤ 1)
    ∧ (([c2Old, c2Fresh] : List EmailData).countP
        (fun e => decide (e.message_id = some "b")) ≤ 1)
    ∧ c2Old ∈ ([c2Old, c2Fresh] : List EmailData) := by
  have hm : merge_emails [c2Old] [c2NewDup, c2Fresh] = some [c2Old, c2Fresh] := by
    have h := merge_emails_pair [c2Old] [c2NewDup, c2Fresh] c2Old c2Fresh
      (by decide) (by decide)
    rw [show date_le c2Old c2Fresh = true from by decide] at h
    simpa using h
  have hd := (merge_dedup [c2Old] [c2NewDup, c2Fresh]
    (fun s _ => List.countP_le_length _)).1 [c2Old, c2Fresh] hm
  exact ⟨hd.1 "a" (by decide), hd.1 "b" (by decide), hd.2.1 c2Old (by simp)⟩

/-- C4 (amended): whenever the final sort succeeds — resolved keys
uniformly aware or uniformly naive — the returned sequence is sorted by
resolved date in descending tick order; a message whose date is absent,
empty, or rejected by every parser of the fallback chain is assigned
the naive minimum instant (and in a successfully sorted collection, all
then-naive, sorts after every strictly later message); and merge
returns nothing precisely when the combined collection mixes an aware
with a naive resolved date, where the Python sort raises TypeError. -/
theorem merge_sorted_desc (existing incoming : List EmailData) :
    (∀ merged, merge_emails existing incoming = some merged →
      merged.Pairwise (fun a b => (get_date b).ticks ≤ (get_date a).ticks))
    ∧ (∀ e : EmailData, e.date = none → get_date e = PyDateTime.naive 0)
    ∧ (∀ (e : EmailData) (s : String), e.date = some s →
        s = "" ∨ (parsedate_to_datetime s = none ∧ strptime_rfc2822_z s = none ∧
          strptime_rfc2822_named s = none) →
        get_date e = PyDateTime.naive 0)
    ∧ (merge_emails existing incoming = none ↔
        (∃ a ∈ merge_combined existing incoming, (get_date a).isAware = true)
        ∧ (∃ b ∈ merge_combined existing incoming, (get_date b).isAware = false)) := by
  refine ⟨?_, ?_, ?_, ?_⟩
  · intro merged hm
    rw [merge_emails_eq_some] at hm
    rw [hm.2]
    have hs := List.sorted_mergeSort date_le_trans date_le_total
      (merge_combined existing incoming)
    exact hs.imp (by intro a b hab; simpa [date_le] using hab)
  · intro e h
    simp [get_date, h]
  · intro e s hset hcase
    cases hcase with
    | inl h0 => simp [get_date, hset, h0]
    | inr hnone => simp [get_date, hset, hnone.1, hnone.2.1, hnone.2.2]
  · rw [merge_emails_eq_none]
    unfold merge_sortable
    constructor
    · intro hf
      rcases Bool.or_eq_false_iff.mp hf with ⟨hA, hN⟩
      rcases List.all_eq_false.mp hA with ⟨a, ha, hpa⟩
      rcases List.all_eq_false.mp hN with ⟨b, hb, hpb⟩
      refine ⟨⟨b, hb, ?_⟩, ⟨a, ha, ?_⟩⟩
      · simpa using hpb
      · simpa using hpa
    · rintro ⟨⟨a, ha, hA⟩, ⟨b, hb, hB⟩⟩
      rw [Bool.or_eq_false_iff]
      exact ⟨List.all_eq_false.mpr ⟨b, hb, by simp [hB]⟩,
        List.all_eq_false.mpr ⟨a, ha, by simp [hA]⟩⟩

/-- Dated message for the merge theorems (an RFC-2822 date with a
numeric offset, hence an aware resolved key). -/
def cOldDated : EmailData :=
  { c2Dup with
    message_id := some "o"
    date := some "Mon, 01 Jan 2024 10:00:00 +0000" }

/-- Later dated message for the merge theorems. -/
def cNewDated : EmailData :=
  { c2Dup with
    message_id := some "n"
    date := some "Tue, 02 Jan 2024 11:30:00 +0000" }

/-- Undated message for the merge theorems (a naive minimum-instant
resolved key). -/
def cUndated : EmailData :=
  { c2Dup with
    message_id := some "u"
    date := none }

/-- C4 counterexample: on a collection mixing an offset-dated (aware)
message with an undated (naive minimum) message, _merge_emails raises
TypeError inside the sort instead of returning a sequence with the
undated message last, so the claim's unconditional sortedness fails. -/
theorem merge_sorted_desc_counterexample :
    merge_emails [cOldDated, cUndated] [cNewDated] = none
    ∧ (get_date cOldDated).isAware = true
    ∧ (get_date cUndated).isAware = false :=
  ⟨by decide, by decide, by decide⟩

theorem merge_sorted_desc_witness :
    (([cNewDated, cOldDated] : List EmailData).Pairwise
      (fun a b => (get_date b).ticks ≤ (get_date a).ticks))
    ∧ get_date cUndated = PyDateTime.naive 0 := by
  have hm : merge_emails [cOldDated] [cNewDated] = some [cNewDated, cOldDated] := by
    have h := merge_emails_pair [cOldDated] [cNewDated] cOldDated cNewDated
      (by decide) (by decide)
    rw [show date_le cOldDated cNewDated = false from by decide] at h
    simpa using h
  exact ⟨(merge_sorted_desc [cOldDated] [cNewDated]).1 [cNewDated, cOldDated] hm,
    (merge_sorted_desc [] []).2.1 cUndated rfl⟩

/-- C5 (amended): when merging the empty batch succeeds its result is
the existing collection stably re-sorted by resolved date (a
permutation with the same message_ids, not the identical sequence in
general; on mixed naive/aware collections the call raises TypeError
instead); merging a collection with itself is the very same computation
as merging the empty batch (same success or failure, same result); and
a successful merge absorbs a re-merge of the same batch exactly. -/
theorem merge_idempotence (X Y : List EmailData) :
    (∀ l, merge_emails X [] = some l → l = X.mergeSort date_le ∧ l.Perm X)
    ∧ merge_emails X X = merge_emails X []
    ∧ (∀ Z, merge_emails X Y = some Z → merge_emails Z Y = some Z) := by
  have hcombX : merge_combined X [] = X := by
    unfold merge_combined
    rw [addNew_nil_incoming, List.append_nil]
  refine ⟨?_, ?_, ?_⟩
  · intro l hl
    rw [merge_emails_eq_some, hcombX] at hl
    exact ⟨hl.2, hl.2 ▸ List.mergeSort_perm X date_le⟩
  · unfold merge_emails
    rw [show merge_combined X X = X from by
        unfold merge_combined
        rw [addNew_all_mem _ X (fun x hx => List.mem_map.2 ⟨x, hx, rfl⟩),
          List.append_nil],
      hcombX]
  · intro Z hZ
    rw [merge_emails_eq_some] at hZ
    obtain ⟨hg, hZeq⟩ := hZ
    have hZperm : Z.Perm (merge_combined X Y) := hZeq ▸ List.mergeSort_perm _ _
    have hcov : ∀ y ∈ Y, y.message_id ∈ Z.map (fun e => e.message_id) := by
      intro y hy
      rw [(hZperm.map (fun e => e.message_id)).mem_iff]
      show y.message_id ∈ (merge_combined X Y).map (fun e => e.message_id)
      unfold merge_combined
      rw [List.map_append, List.mem_append]
      exact addNew_covers _ Y y hy
    have hcombZ : merge_combined Z Y = Z := by
      unfold merge_combined
      rw [addNew_all_mem _ Y hcov, List.append_nil]
    rw [merge_emails_eq_some, hcombZ]
    refine ⟨?_, ?_⟩
    · rw [merge_sortable_of_perm hZperm]
      exact hg
    · rw [hZeq]
      exact (List.mergeSort_of_sorted
        (List.sorted_mergeSort date_le_trans date_le_total _)).symm

/-- C5 counterexample: with an existing collection stored oldest first,
merging the empty batch re-sorts it newest first, so the result is not
the existing collection itself. -/
theorem merge_idempotence_counterexample :
    merge_emails [cOldDated, cNewDated] [] = some [cNewDated, cOldDated]
    ∧ (merge_emails [cOldDated, cNewDated] [] = some [cOldDated, cNewDated] → False) := by
  have h := merge_emails_pair [cOldDated, cNewDated] [] cOldDated cNewDated
    (by decide) (by decide)
  rw [show date_le cOldDated cNewDated = false from by decide] at h
  simp only [Bool.false_eq_true, if_false] at h
  refine ⟨h, ?_⟩
  rw [h]
  intro hc
  exact absurd hc (by decide)

theorem merge_idempotence_witness :
    (([cNewDated, cOldDated] : List EmailData) = [cOldDated, cNewDated].mergeSort date_le
      ∧ ([cNewDated, cOldDated] : List EmailData).Perm [cOldDated, cNewDated])
    ∧ merge_emails [cOldDated, cNewDated] [cOldDated, cNewDated]
        = merge_emails [cOldDated, cNewDated] []
    ∧ merge_emails [cNewDated, cOldDated] [cNewDated] = some [cNewDated, cOldDated] := by
  have hm0 : merge_emails [cOldDated, cNewDated] [] = some [cNewDated, cOldDated] := by
    have h := merge_emails_pair [cOldDated, cNewDated] [] cOldDated cNewDated
      (by decide) (by decide)
    rw [show date_le cOldDated cNewDated = false from by decide] at h
    simpa using h
  have hm1 : merge_emails [cOldDated] [cNewDated] = some [cNewDated, cOldDated] := by
    have h := merge_emails_pair [cOldDated] [cNewDated] cOldDated cNewDated
      (by decide) (by decide)
    rw [show date_le cOldDated cNewDated = false from by decide] at h
    simpa using h
  exact ⟨(merge_idempotence [cOldDated, cNewDated] []).1 [cNewDated, cOldDated] hm0,
    (merge_idempotence [cOldDated, cNewDated] []).2.1,
    (merge_idempotence [cOldDated] [cNewDated]).2.2 [cNewDated, cOldDated] hm1⟩

/-- C9 (amended): merge deduplicates on the exact message_id value even
when the identifier is absent: a later incoming message is a no-op for
the append loop precisely when its message_id value already occurs in
the existing collection or on an earlier incoming message — the absent
identifier and the empty-string identifier being distinct values — and
it is appended right after the earlier fresh messages otherwise;
moreover, on a successful final sort, the number of occurrences of any
identifier already present in the existing collection is unchanged by
the merge. -/
theorem merge_exact_id_dedup (existing pre post : List EmailData) (e : EmailData) :
    (e.message_id ∈ existing.map (fun x => x.message_id)
        ∨ e.message_id ∈ pre.map (fun x => x.message_id) →
      addNew (existing.map (fun x => x.message_id)) (pre ++ e :: post)
        = addNew (existing.map (fun x => x.message_id)) (pre ++ post))
    ∧ (e.message_id ∉ existing.map (fun x => x.message_id) →
       e.message_id ∉ pre.map (fun x => x.message_id) →
      addNew (existing.map (fun x => x.message_id)) (pre ++ e :: post)
        = addNew (existing.map (fun x => x.message_id)) pre
          ++ e :: addNew (e.message_id
              :: (addNew (existing.map (fun x => x.message_id)) pre).map
                  (fun x => x.message_id)
              ++ existing.map (fun x => x.message_id)) post)
    ∧ (∀ (incoming merged : List EmailData) (v : Option String),
        v ∈ existing.map (fun x => x.message_id) →
        merge_emails existing incoming = some merged →
        merged.countP (fun x => decide (x.message_id = v))
          = existing.countP (fun x => decide (x.message_id = v))) := by
  refine ⟨fun h => addNew_drop _ pre post e h,
    fun h1 h2 => addNew_keep _ pre post e h1 h2, ?_⟩
  intro incoming merged v hv hm
  rw [merge_emails_eq_some] at hm
  have hperm : merged.Perm
      (existing ++ addNew (existing.map (fun x => x.message_id)) incoming) := by
    rw [hm.2]
    exact List.mergeSort_perm _ _
  rw [hperm.countP_eq, List.countP_append]
  have hz : (addNew (existing.map (fun x => x.message_id)) incoming).countP
      (fun x => decide (x.message_id = v)) = 0 := by
    rw [List.countP_eq_zero]
    intro x hx
    simp only [decide_eq_true_eq]
    intro heq
    exact addNew_ids_fresh _ incoming x.message_id
      (List.mem_map.2 ⟨x, hx, rfl⟩) (by rw [heq]; exact hv)
  rw [hz]
  omega

/-- Existing message with an absent identifier for the C9 theorems. -/
def c9None : EmailData :=
  { c2Dup with
    message_id := none
    subject := "first" }

/-- Incoming message with an empty-string identifier, differing from
c9None in every other interesting field. -/
def c9Empty : EmailData :=
  { c2Dup with
    message_id := some ""
    subject := "second"
    body := "other body" }

/-- Second message with an absent identifier for the C9 witness. -/
def c9None2 : EmailData :=
  { c2Dup with
    message_id := none
    subject := "third"
    body := "yet another" }

/-- C9 counterexample: the claim lumps absent and empty identifiers
together, but an incoming message with the empty-string identifier is
kept even though the existing collection holds a message with the
absent identifier — the two values are distinct deduplication keys. -/
theorem merge_exact_id_dedup_counterexample :
    merge_emails [c9None] [c9Empty] = some [c9None, c9Empty]
    ∧ c9Empty ∈ ([c9None, c9Empty] : List EmailData) := by
  constructor
  · have h := merge_emails_pair [c9None] [c9Empty] c9None c9Empty (by decide) (by decide)
    rw [show date_le c9None c9Empty = true from by decide] at h
    simpa using h
  · simp

theorem merge_exact_id_dedup_witness :
    (addNew ([c9None].map (fun x => x.message_id)) ([] ++ c9None2 :: [])
      = addNew ([c9None].map (fun x => x.message_id)) ([] ++ []))
    ∧ ([c9None] : List EmailData).countP (fun x => decide (x.message_id = none))
      = ([c9None] : List EmailData).countP (fun x => decide (x.message_id = none)) := by
  have hm : merge_emails [c9None] [c9None2] = some [c9None] := by
    unfold merge_emails
    rw [show merge_combined [c9None] [c9None2] = [c9None] from by decide,
      if_pos (by decide)]
    simp
  exact ⟨(merge_exact_id_dedup [c9None] [] [] c9None2).1 (Or.inl (by decide)),
    (merge_exact_id_dedup [c9None] [] [] c9None2).2.2 [c9None2] [c9None] none
      (by decide) hm⟩

/-- Once the body is set, the walk leaves it alone over a suffix whose
plain parts all decode empty, provided the body is non-empty or the
suffix's html parts all decode empty too (the two cases in which no
branch of the walk fires). -/
theorem walk_body_stable (conv : String → String) (qs : List MimePart) (w : String)
    (hplain : ∀ u, MimePart.plain u ∈ qs → u = "")
    (hhtml : w ≠ "" ∨ ∀ u, MimePart.html u ∈ qs → u = "") :
    walk_body conv qs w = w := by
  induction qs with
  | nil => rfl
  | cons p t ih =>
      have hplain' : ∀ u, MimePart.plain u ∈ t → u = "" :=
        fun u hu => hplain u (List.mem_cons_of_mem _ hu)
      have hhtml' : w ≠ "" ∨ ∀ u, MimePart.html u ∈ t → u = "" := by
        rcases hhtml with h | h
        · exact Or.inl h
        · exact Or.inr (fun u hu => h u (List.mem_cons_of_mem _ hu))
      cases p with
      | plain u =>
          have hu : u = "" := hplain u (List.mem_cons_self _ _)
          simpa [walk_body, hu] using ih hplain' hhtml'
      | html u =>
          rcases hhtml with h | h
          · simpa [walk_body, h] using ih hplain' hhtml'
          · have hu : u = "" := h u (List.mem_cons_self _ _)
            simpa [walk_body, hu] using ih hplain' hhtml'
      | application fn ct sz => simpa [walk_body] using ih hplain' hhtml'
      | other => simpa [walk_body] using ih hplain' hhtml'

/-- C3 (amended): in the multipart walk a text/plain part whose decode
is non-empty always overwrites the body, so for every walk — trailing
parts allowed — the decoded body equals the cleaned text of the last
text/plain part with a non-empty decode, provided that cleaned text is
non-empty or every later text/html part decodes empty; and a text/html
part is consulted only while the body is empty at the moment it is
walked. -/
theorem body_last_plain_wins (conv : String → String) :
    (∀ (ps qs : List MimePart) (s c : String), c ≠ "" →
      (∀ u, MimePart.plain u ∈ qs → u = "") →
      (clean_text c ≠ "" ∨ ∀ u, MimePart.html u ∈ qs → u = "") →
      walk_body conv (ps ++ MimePart.plain c :: qs) s = clean_text c)
    ∧ (∀ (t : String) (rest : List MimePart) (s : String), s ≠ "" →
      walk_body conv (MimePart.html t :: rest) s = walk_body conv rest s) := by
  constructor
  · intro ps
    induction ps with
    | nil =>
        intro qs s c hc hplain hhtml
        simp only [List.nil_append, walk_body, if_pos hc]
        exact walk_body_stable conv qs (clean_text c) hplain hhtml
    | cons p t ih =>
        intro qs s c hc hplain hhtml
        cases p with
        | plain u => simpa [walk_body] using ih qs _ c hc hplain hhtml
        | html u => simpa [walk_body] using ih qs _ c hc hplain hhtml
        | application fn ct sz => simpa [walk_body] using ih qs s c hc hplain hhtml
        | other => simpa [walk_body] using ih qs s c hc hplain hhtml
  · intro t rest s hs
    simp [walk_body, hs]

/-- Stdlib instance with identity decoders and converters and a failing
validator, for the concrete C3 and C8 theorems. -/
def idStdlib : Stdlib :=
  ⟨id, id, fun _ => none, fun _ => none, fun _ => none⟩

/-- Multipart raw message with two non-empty text/plain parts for the
C3 counterexample. -/
def c3Raw : RawEmail :=
  { subject := some "s"
    «from» := some "f"
    «to» := some "t"
    date := none
    message_id := some "m3"
    in_reply_to := none
    references := none
    is_multipart := true
    parts := [MimePart.plain "alpha", MimePart.plain "beta"]
    content := MimePart.other }

/-- C3 counterexample: with two text/plain parts both decoding to
non-empty text, the parsed body is the cleaned text of the second
(last) part, not of the first — a later plain part overwrites the body
rather than being ignored. -/
theorem body_last_plain_wins_counterexample :
    (parse_email idStdlib none emptyConfig [] c3Raw).body = clean_text "beta"
    ∧ ((parse_email idStdlib none emptyConfig [] c3Raw).body = clean_text "alpha" → False)
    ∧ clean_text "alpha" ≠ clean_text "beta" :=
  ⟨by decide, by decide, by decide⟩

theorem body_last_plain_wins_witness :
    walk_body id ([MimePart.html "<p>h</p>", MimePart.plain "x"]
        ++ MimePart.plain "beta"
          :: [MimePart.application (some "f.pdf") "application/pdf" 3, MimePart.plain ""]) ""
      = clean_text "beta"
    ∧ walk_body id (MimePart.html "<p>h</p>" :: [MimePart.plain "x"]) "set"
      = walk_body id [MimePart.plain "x"] "set" :=
  ⟨(body_last_plain_wins id).1 [MimePart.html "<p>h</p>", MimePart.plain "x"]
      [MimePart.application (some "f.pdf") "application/pdf" 3, MimePart.plain ""] "" "beta"
      (by decide) (by intro u hu; simpa using hu) (Or.inl (by decide)),
   (body_last_plain_wins id).2 "<p>h</p>" [MimePart.plain "x"] "set" (by decide)⟩

/-- The contact check never fires without a contact directory. -/
theorem compute_is_from_contact_none (validate : String → Option String) (f : String) :
    compute_is_from_contact validate none f = false := by
  unfold compute_is_from_contact
  split
  · rename_i c heq
    exact absurd heq (by simp)
  · dsimp only
    split <;> rfl

/-- C8: with verbose output disabled, _load_contacts returns before
reading the contacts file, leaving the directory absent; consequently
the parsed message is identical for any two contacts-file contents,
is_from_contact is false, and the contact bonus contributes zero — the
output does not depend on the contacts file at all. -/
theorem contacts_noninterference (lib : Stdlib) (cfg : ScoringConfig)
    (blacklist : List String) (raw : RawEmail) (f1 f2 : Option ContactsFile) :
    load_contacts false f1 = none
    ∧ parse_email lib (load_contacts false f1) cfg blacklist raw
        = parse_email lib (load_contacts false f2) cfg blacklist raw
    ∧ (parse_email lib (load_contacts false f1) cfg blacklist raw).is_from_contact = false
    ∧ (∀ (e : EmailData) (text : String),
        contact_contrib (load_contacts false f1) cfg e text = 0) := by
  have h1 : load_contacts false f1 = none := rfl
  have h2 : load_contacts false f2 = none := rfl
  rw [h1, h2]
  refine ⟨rfl, rfl, ?_, ?_⟩
  · exact compute_is_from_contact_none lib.validate_email _
  · intro e text
    simp [contact_contrib]

/-- Contacts file for the C8 witness, naming the sender of the witness
message. -/
def c8File : ContactsFile := ⟨["f"], ["f"], ["f"], ["f"], ["f"]⟩

/-- Raw message for the C8 witness. -/
def c8Raw : RawEmail :=
  { subject := some "s"
    «from» := some "f"
    «to» := some "t"
    date := none
    message_id := some "m8"
    in_reply_to := none
    references := none
    is_multipart := false
    parts := []
    content := MimePart.plain "hello" }

theorem contacts_noninterference_witness :
    parse_email idStdlib (load_contacts false (some c8File)) emptyConfig [] c8Raw
      = parse_email idStdlib (load_contacts false none) emptyConfig [] c8Raw
    ∧ (parse_email idStdlib (load_contacts false (some c8File)) emptyConfig [] c8Raw).is_from_contact
      = false :=
  ⟨(contacts_noninterference idStdlib emptyConfig [] c8Raw (some c8File) none).2.1,
   (contacts_noninterference idStdlib emptyConfig [] c8Raw (some c8File) none).2.2.1⟩

end EmailProc
